import Mathlib

/-!
Shallow embedding of `Adafruit_AMG88xx.cpp` (driver for the AMG88xx 8x8
thermal camera).  Machine integers are modelled as `Nat`/`Int` with explicit
reductions mod 2^8 and 2^16.  Every C `float` that occurs is an integer
multiple of 2^-4 well inside the exactly-representable range, so real-valued
temperatures are modelled as `ℚ` and the arithmetic is exact.  The I2C bus is
modelled as a device memory map `Nat → Nat` (one byte per register address,
addresses taken mod 256 as in the 8-bit register pointer) together with an
explicit trace of bus transactions.
-/

/-- Bus transactions issued by the driver, as seen on the wire.
`addrWrite r` is the one-byte register-address write that precedes a burst
read; `busRead n` is an n-byte device-to-host read; `regWrite r v` is the
two-byte register write issued by `write8`; `delayMs` is the host delay. -/
inductive I2CEvent where
  | addrWrite (reg : Nat) : I2CEvent
  | busRead (len : Nat) : I2CEvent
  | regWrite (reg val : Nat) : I2CEvent
  | delayMs (ms : Nat) : I2CEvent
  deriving DecidableEq

/-- Total number of bytes read from the device in a trace. -/
def totalRead : List I2CEvent → Nat
  | [] => 0
  | I2CEvent.busRead n :: rest => n + totalRead rest
  | _ :: rest => totalRead rest

/-- One chunk of `Adafruit_AMG88xx::read` (src lines 227-234): after writing
register address `(reg + pos) % 256`, the `cnt` bytes read are copied to
destination offsets `pos .. pos+cnt-1`; offset `j` receives the byte of
device register `(reg + j) % 256`. -/
def segWrite (mem : Nat → Nat) (reg : Nat) (dest : Nat → Nat) (pos cnt : Nat) :
    Nat → Nat :=
  fun j => if pos ≤ j ∧ j < pos + cnt then mem ((reg + j) % 256) else dest j

/-- The `while (pos < num)` loop of `Adafruit_AMG88xx::read` (src lines
226-235).  Each iteration writes the register address `reg + pos` (uint8_t
arithmetic), reads `read_now = min(chunkSize, num - pos)` bytes and copies
them to destination offsets starting at `pos`.  The extra guard
`0 < min C (num - pos)` makes the model total: with `C = 0` the C loop never
advances `pos` and spins forever, the model stops instead. -/
def chunkLoop (mem : Nat → Nat) (reg C num pos : Nat) (dest : Nat → Nat)
    (tr : List I2CEvent) : (Nat → Nat) × List I2CEvent :=
  if h : pos < num ∧ 0 < min C (num - pos) then
    chunkLoop mem reg C num (pos + min C (num - pos))
      (segWrite mem reg dest pos (min C (num - pos)))
      (tr ++ [I2CEvent.addrWrite ((reg + pos) % 256),
              I2CEvent.busRead (min C (num - pos))])
  else (dest, tr)
termination_by num - pos
decreasing_by simp_wf; omega

/-- `Adafruit_AMG88xx::read` (src lines 214-237): read `num` bytes starting
at register `reg` into `dest`, where `C` is `i2c_dev->maxBufferSize()`.
If `C > num` a single address write plus a single `num`-byte read is issued;
otherwise the transfer is chunked. -/
def readAMG (mem : Nat → Nat) (reg : Nat) (dest : Nat → Nat) (num C : Nat) :
    (Nat → Nat) × List I2CEvent :=
  if num < C then
    (fun j => if j < num then mem ((reg + j) % 256) else dest j,
     [I2CEvent.addrWrite (reg % 256), I2CEvent.busRead num])
  else
    chunkLoop mem reg C num 0 dest []

/-- Spec-side definition (refinement target for the chunked transfer, spec
section 4.3): the result of one hypothetical write-`{R}`-then-read-`N`
transaction, stated directly from the spec's words. -/
def singleReadSpec (mem : Nat → Nat) (reg : Nat) (dest : Nat → Nat)
    (num : Nat) : Nat → Nat :=
  fun j => if j < num then mem ((reg + j) % 256) else dest j

/-- `Adafruit_AMG88xx::signedMag12ToFloat` (src lines 251-256): take the low
11 bits as the magnitude, negate if bit 0x800 is set.  The result is an
integer with absolute value at most 2047, exact as a C float. -/
def signedMag12ToFloat (val : Nat) : Int :=
  if val &&& 0x800 ≠ 0 then -((val &&& 0x7FF : Nat) : Int)
  else ((val &&& 0x7FF : Nat) : Int)

/-- `Adafruit_AMG88xx::int12ToFloat` (src lines 266-271): `val << 4` stored
into a 16-bit two's-complement `int16_t` (reduction mod 2^16, values at or
above 2^15 represent negatives), then an arithmetic shift right by 4 (floor
division by 16).  Net effect: sign-extension of the low 12 bits of `val`. -/
def int12ToFloat (val : Nat) : Int :=
  Int.ediv
    (if (val * 16) % 65536 < 32768 then ((val * 16) % 65536 : Int)
     else ((val * 16) % 65536 : Int) - 65536) 16

/-- `AMG88xx_PIXEL_TEMP_CONVERSION = 0.25` (exact in binary floating point). -/
def PIXEL_TEMP_CONVERSION : ℚ := 1 / 4

/-- `AMG88xx_THERMISTOR_CONVERSION = 0.0625` (exact in binary floating point). -/
def THERMISTOR_CONVERSION : ℚ := 1 / 16

/-- C conversion of an exact real (`float`) value to `int`: truncation toward
zero.  Used for `int highConv = high / AMG88xx_PIXEL_TEMP_CONVERSION` in
`setInterruptLevels`; the division of a float by 0.25 is exact. -/
def truncQ (q : ℚ) : Int := Int.tdiv q.num (q.den : Int)

/-- The Arduino `constrain(amt, low, high)` macro:
`(amt < low) ? low : ((amt > high) ? high : amt)`. -/
def constrain (x lo hi : Int) : Int :=
  if x < lo then lo else if hi < x then hi else x

/-- Low byte of a two's-complement `int`: `k & 0xFF`. -/
def lowByte8 (k : Int) : Nat := (Int.emod k 256).toNat

/-- The byte the source stores in the high-nibble register:
`(k & 0xF) >> 4` (src lines 73, 80, 87) — note this is always zero. -/
def highNibbleCode (k : Int) : Nat := (Int.emod k 16).toNat >>> 4

/-- Spec-side definition (spec sections 4.1 and 9, the corrected encoding):
the on-wire high-nibble value must be `(k >> 8) & 0x0F`, the upper four bits
of the clamped 12-bit two's-complement threshold. -/
def claimHighNibble (k : Int) : Nat := (Int.emod (Int.ediv k 256) 16).toNat

/-- `Adafruit_AMG88xx::setInterruptLevels(high, low, hysteresis)` (src lines
68-90), as the list of `(register, byte)` pairs written, in order:
INTHL, INTHH, INTLL, INTLH, IHYSL, IHYSH.  Each limit is divided by 0.25,
truncated to `int`, clamped to `[-4095, 4095]`, split into a low byte
(`k & 0xFF`, stored in an 8-bit field) and the source's high-nibble byte
(`(k & 0xF) >> 4`, stored in a 4-bit field, hence the final `% 16`). -/
def setInterruptLevels (high low hys : ℚ) : List (Nat × Nat) :=
  [(0x08, lowByte8 (constrain (truncQ (high / PIXEL_TEMP_CONVERSION)) (-4095) 4095)),
   (0x09, highNibbleCode (constrain (truncQ (high / PIXEL_TEMP_CONVERSION)) (-4095) 4095) % 16),
   (0x0A, lowByte8 (constrain (truncQ (low / PIXEL_TEMP_CONVERSION)) (-4095) 4095)),
   (0x0B, highNibbleCode (constrain (truncQ (low / PIXEL_TEMP_CONVERSION)) (-4095) 4095) % 16),
   (0x0C, lowByte8 (constrain (truncQ (hys / PIXEL_TEMP_CONVERSION)) (-4095) 4095)),
   (0x0D, highNibbleCode (constrain (truncQ (hys / PIXEL_TEMP_CONVERSION)) (-4095) 4095) % 16)]

/-- `bytesToRead` of `Adafruit_AMG88xx::readPixels` (src lines 175-176):
`min((uint8_t)(size << 1), (uint8_t)(AMG88xx_PIXEL_ARRAY_SIZE << 1))`, where
the uint8_t casts reduce mod 256 and `AMG88xx_PIXEL_ARRAY_SIZE = 64`. -/
def pixBytesToRead (size : Nat) : Nat := min ((2 * size) % 256) 128

/-- Indices of the local `rawArray` accessed by the conversion loop of
`readPixels` (src lines 180-186): for each `i < size`, `pos = (uint8_t)(i<<1)`
and the loop reads `rawArray[pos]` and `rawArray[pos + 1]`. -/
def readPixelsRawIdx (size : Nat) : List Nat :=
  (List.range size).flatMap (fun i => [(2 * i) % 256, (2 * i) % 256 + 1])

/-- `Adafruit_AMG88xx::readPixels(buf, size)` (src lines 172-187).  `junk` is
the (indeterminate) initial content of the uninitialized local `rawArray`;
`buf` is the caller's float array, `C` the adapter's max transaction size.
Returns the updated `buf` and the bus trace.  For each `i < size` the loop
forms the little-endian word from raw offsets `(2i) % 256` and
`(2i) % 256 + 1` and stores `int12ToFloat(word) * 0.25` in `buf[i]`. -/
def readPixels (mem junk : Nat → Nat) (buf : Nat → ℚ) (size C : Nat) :
    (Nat → ℚ) × List I2CEvent :=
  (fun i => if i < size then
      (int12ToFloat ((readAMG mem 0x80 junk (pixBytesToRead size) C).fst ((2 * i) % 256) +
        256 * (readAMG mem 0x80 junk (pixBytesToRead size) C).fst ((2 * i) % 256 + 1)) : ℚ) *
        PIXEL_TEMP_CONVERSION
    else buf i,
   (readAMG mem 0x80 junk (pixBytesToRead size) C).snd)

/-- `bytesToRead` of `Adafruit_AMG88xx::getInterrupt` (src line 134):
`min(size, (uint8_t)8)`. -/
def intBytesToRead (size : Nat) : Nat := min size 8

/-- `Adafruit_AMG88xx::getInterrupt(buf, size)` (src lines 133-137): chunked
read of `min(size, 8)` bytes at `AMG88xx_INT_OFFSET = 0x10` directly into the
caller's buffer. -/
def getInterrupt (mem : Nat → Nat) (buf : Nat → Nat) (size C : Nat) :
    (Nat → Nat) × List I2CEvent :=
  readAMG mem 0x10 buf (intBytesToRead size) C

/-- `Adafruit_AMG88xx::readThermistor()` (src lines 155-161): read two bytes
at `AMG88xx_TTHL = 0x0E` (into an uninitialized 2-byte local, initial content
`junk`), form the little-endian word, decode with `signedMag12ToFloat` and
scale by `AMG88xx_THERMISTOR_CONVERSION`. -/
def readThermistor (mem junk : Nat → Nat) (C : Nat) : ℚ :=
  (signedMag12ToFloat ((readAMG mem 0x0E junk 2 C).fst 0 +
      256 * (readAMG mem 0x0E junk 2 C).fst 1) : ℚ) * THERMISTOR_CONVERSION

/-- Modelled from the spec: the mirrored configuration-register bitfields.
The bitfield structs (`pctl`, `rst`, `fpsc`, `intc`, `ave`, ...) live in
`Adafruit_AMG88xx.h`, which is not under `src/`; the field layout is taken
from spec section 4.1 (INTC: `INTMOD[1]`, `INTEN[0]`; AVE: `MAMOD[5]`; PCTL
and RST whole-byte; FPSC: `FPS[0]`).  Each field keeps only as many bits as
its declared width, as a C bitfield assignment does. -/
structure Mirrors where
  pctl : Nat
  rst : Nat
  intmod : Nat
  inten : Nat
  fps : Nat
  mamod : Nat

/-- Modelled from the spec: the driver object's mirrors before `begin`.  The
driver instance is a zero-initialized C++ object; all mirror fields start 0. -/
def initMirrors : Mirrors := ⟨0, 0, 0, 0, 0, 0⟩

/-- Modelled from the spec: `_pctl.get()`, PCTL is a whole-byte field. -/
def pctlGet (m : Mirrors) : Nat := m.pctl % 256

/-- Modelled from the spec: `_rst.get()`, RST is a whole-byte field. -/
def rstGet (m : Mirrors) : Nat := m.rst % 256

/-- Modelled from the spec: `_intc.get()`, INTC byte = `INTMOD << 1 | INTEN`. -/
def intcGet (m : Mirrors) : Nat := (m.intmod % 2) * 2 + m.inten % 2

/-- Modelled from the spec: `_fpsc.get()`, FPSC byte = `FPS` in bit 0. -/
def fpscGet (m : Mirrors) : Nat := m.fps % 2

/-- Modelled from the spec: `_ave.get()`, AVE byte = `MAMOD` in bit 5. -/
def aveGet (m : Mirrors) : Nat := (m.mamod % 2) * 32

/-- `Adafruit_AMG88xx::enableInterrupt` (src lines 97-100): set `INTEN` in
the INTC mirror and write the mirror byte to register 0x03. -/
def enableInterrupt (m : Mirrors) : Mirrors × I2CEvent :=
  (⟨m.pctl, m.rst, m.intmod, 1, m.fps, m.mamod⟩,
   I2CEvent.regWrite 0x03 (intcGet ⟨m.pctl, m.rst, m.intmod, 1, m.fps, m.mamod⟩))

/-- `Adafruit_AMG88xx::disableInterrupt` (src lines 107-110): clear `INTEN`
in the INTC mirror and write the mirror byte to register 0x03. -/
def disableInterrupt (m : Mirrors) : Mirrors × I2CEvent :=
  (⟨m.pctl, m.rst, m.intmod, 0, m.fps, m.mamod⟩,
   I2CEvent.regWrite 0x03 (intcGet ⟨m.pctl, m.rst, m.intmod, 0, m.fps, m.mamod⟩))

/-- `Adafruit_AMG88xx::setInterruptMode(mode)` (src lines 119-122): store
`mode` in the 1-bit `INTMOD` field (truncated to the field width) and write
the mirror byte to register 0x03. -/
def setInterruptMode (m : Mirrors) (mode : Nat) : Mirrors × I2CEvent :=
  (⟨m.pctl, m.rst, mode % 2, m.inten, m.fps, m.mamod⟩,
   I2CEvent.regWrite 0x03 (intcGet ⟨m.pctl, m.rst, mode % 2, m.inten, m.fps, m.mamod⟩))

/-- `Adafruit_AMG88xx::setMovingAverageMode(mode)` (src lines 43-46): store
the bool in the 1-bit `MAMOD` field and write the mirror byte to 0x07. -/
def setMovingAverageMode (m : Mirrors) (mode : Bool) : Mirrors × I2CEvent :=
  (⟨m.pctl, m.rst, m.intmod, m.inten, m.fps, if mode then 1 else 0⟩,
   I2CEvent.regWrite 0x07 (aveGet ⟨m.pctl, m.rst, m.intmod, m.inten, m.fps, if mode then 1 else 0⟩))

/-- `Adafruit_I2CDevice::write` of a register address plus one data byte, as
called by `Adafruit_AMG88xx::write` (src lines 239-242).  The adapter reports
a success status (`wOk n` for the n-th write of the call); the event records
what is put on the wire. -/
def i2cWriteTx (wOk : Nat → Bool) (n reg val : Nat) : Bool × I2CEvent :=
  (wOk n, I2CEvent.regWrite (reg % 256) (val % 256))

/-- `Adafruit_AMG88xx::write8(reg, value)` (src lines 196-198): a void
function; the adapter's success status is discarded. -/
def write8 (wOk : Nat → Bool) (n reg val : Nat) : I2CEvent :=
  (i2cWriteTx wOk n reg val).snd

/-- `Adafruit_AMG88xx::begin` (src lines 12-35).  `initOk` is the result of
`i2c_dev->begin()`; `wOk` gives the adapter status of each register write
(discarded by `write8`).  On adapter-init failure: return false, no bus
traffic.  Otherwise: PCTL <- NORMAL_MODE (0x00), RST <- INITIAL_RESET (0x3F),
`disableInterrupt()`, FPSC <- FPS_10 (0x00), `delay(100)`, return true.
Register constants and mirror layout are from the header, per spec section 6. -/
def beginAMG (initOk : Bool) (wOk : Nat → Bool) :
    Bool × List I2CEvent × Mirrors :=
  if initOk then
    (true,
     [write8 wOk 0 0x00 (pctlGet ⟨0x00, 0, 0, 0, 0, 0⟩),
      write8 wOk 1 0x01 (rstGet ⟨0x00, 0x3F, 0, 0, 0, 0⟩),
      (disableInterrupt ⟨0x00, 0x3F, 0, 0, 0, 0⟩).snd,
      write8 wOk 2 0x02 (fpscGet ⟨0x00, 0x3F, 0, 0, 0x00, 0⟩),
      I2CEvent.delayMs 100],
     ⟨0x00, 0x3F, 0, 0, 0x00, 0⟩)
  else (false, [], initMirrors)

theorem totalRead_append (a b : List I2CEvent) :
    totalRead (a ++ b) = totalRead a + totalRead b := by
  induction a with
  | nil => simp [totalRead]
  | cons e rest ih =>
    cases e <;> simp [totalRead, ih] <;> omega

theorem chunkLoop_fst_spec (mem : Nat → Nat) (reg C num : Nat) (hC : 1 ≤ C) :
    ∀ k pos dest tr, num - pos ≤ k →
      ∀ j, (chunkLoop mem reg C num pos dest tr).fst j =
        if pos ≤ j ∧ j < num then mem ((reg + j) % 256) else dest j := by
  intro k
  induction k with
  | zero =>
    intro pos dest tr hk j
    rw [chunkLoop, dif_neg (by omega)]
    rw [if_neg (by omega)]
  | succ k ih =>
    intro pos dest tr hk j
    by_cases h : pos < num
    · rw [chunkLoop, dif_pos ⟨h, by omega⟩]
      rw [ih (pos + min C (num - pos)) _ _ (by omega) j]
      unfold segWrite
      split_ifs <;> first | rfl | omega
    · rw [chunkLoop, dif_neg (by omega)]
      rw [if_neg (by omega)]

theorem chunkLoop_total (mem : Nat → Nat) (reg C num : Nat) (hC : 1 ≤ C) :
    ∀ k pos dest tr, num - pos ≤ k →
      totalRead (chunkLoop mem reg C num pos dest tr).snd =
        totalRead tr + (num - pos) := by
  intro k
  induction k with
  | zero =>
    intro pos dest tr hk
    rw [chunkLoop, dif_neg (by omega)]
    show totalRead tr = totalRead tr + (num - pos)
    omega
  | succ k ih =>
    intro pos dest tr hk
    by_cases h : pos < num
    · rw [chunkLoop, dif_pos ⟨h, by omega⟩]
      rw [ih (pos + min C (num - pos)) _ _ (by omega)]
      rw [totalRead_append]
      simp [totalRead]
      omega
    · rw [chunkLoop, dif_neg (by omega)]
      show totalRead tr = totalRead tr + (num - pos)
      omega

theorem chunkLoop_head (mem : Nat → Nat) (reg C num : Nat) :
    ∀ k pos dest tr, num - pos ≤ k → tr ≠ [] →
      (chunkLoop mem reg C num pos dest tr).snd.head? = tr.head? := by
  intro k
  induction k with
  | zero =>
    intro pos dest tr hk htr
    rw [chunkLoop, dif_neg (by omega)]
  | succ k ih =>
    intro pos dest tr hk htr
    by_cases h : pos < num ∧ 0 < min C (num - pos)
    · rw [chunkLoop, dif_pos h]
      rw [ih (pos + min C (num - pos)) _ _ (by omega)
          (by cases tr with | nil => exact absurd rfl htr | cons x xs => simp)]
      cases tr with
      | nil => exact absurd rfl htr
      | cons x xs => simp
    · rw [chunkLoop, dif_neg h]

theorem read_fst (mem : Nat → Nat) (reg : Nat) (dest : Nat → Nat) (num C : Nat)
    (hC : 1 ≤ C) (j : Nat) :
    (readAMG mem reg dest num C).fst j =
      if j < num then mem ((reg + j) % 256) else dest j := by
  unfold readAMG
  by_cases h : num < C
  · rw [if_pos h]
  · rw [if_neg h]
    have h2 := chunkLoop_fst_spec mem reg C num hC num 0 dest [] (by omega) j
    rw [h2]
    simp

theorem read_totalRead (mem : Nat → Nat) (reg : Nat) (dest : Nat → Nat)
    (num C : Nat) (hC : 1 ≤ C) :
    totalRead (readAMG mem reg dest num C).snd = num := by
  unfold readAMG
  by_cases h : num < C
  · rw [if_pos h]
    simp [totalRead]
  · rw [if_neg h]
    have h2 := chunkLoop_total mem reg C num hC num 0 dest [] (by omega)
    rw [h2]
    simp [totalRead]

theorem read_head (mem : Nat → Nat) (reg : Nat) (dest : Nat → Nat)
    (num C : Nat) (hC : 1 ≤ C) :
    (readAMG mem reg dest num C).snd.head? = some (I2CEvent.addrWrite (reg % 256)) := by
  unfold readAMG
  by_cases h : num < C
  · rw [if_pos h]
    rfl
  · rw [if_neg h]
    rw [chunkLoop, dif_pos (by constructor <;> omega)]
    rw [chunkLoop_head mem reg C num num _ _ _ (by omega) (by simp)]
    simp

/-- C1 (code bug demonstration): at the failing input `high = 1024` (and
`low = hysteresis = 0`) the clamped value is `k = 4095`; the byte the source
writes to the INTHH register is `(k & 0xF) >> 4 = 0x00` (second pair of the
write list), while the encoding asserted by the claim — and mandated by the
spec — is `(k >> 8) & 0x0F = 0x0F`.  The low byte 0xFF does match the claim. -/
theorem setInterruptLevels_highNibble_bug :
    setInterruptLevels 1024 0 0 =
      [(0x08, 0xFF), (0x09, 0x00), (0x0A, 0x00), (0x0B, 0x00),
       (0x0C, 0x00), (0x0D, 0x00)] ∧
    claimHighNibble (constrain (truncQ ((1024 : ℚ) / PIXEL_TEMP_CONVERSION)) (-4095) 4095) = 0x0F ∧
    (0x00 : Nat) ≠ 0x0F := by
  have hq : (1024 : ℚ) / PIXEL_TEMP_CONVERSION = 4096 := by
    norm_num [PIXEL_TEMP_CONVERSION]
  have hq0 : (0 : ℚ) / PIXEL_TEMP_CONVERSION = 0 := by
    norm_num [PIXEL_TEMP_CONVERSION]
  have ht : truncQ 4096 = 4096 := by
    unfold truncQ
    norm_num
  have ht0 : truncQ 0 = 0 := by
    unfold truncQ
    norm_num
  refine ⟨?_, ?_, by decide⟩
  · unfold setInterruptLevels
    rw [hq, hq0, ht, ht0]
    decide
  · rw [hq, ht]
    decide

/-- C2: the chunked read stores into the destination exactly the bytes a
single write-address-then-read-N transaction would: it refines
`singleReadSpec`, and the byte of device register `(R + j) % 256` (uint8_t
register-pointer arithmetic) lands at destination offset `j` for `j < N`. -/
theorem read_chunked_eq_single (mem : Nat → Nat) (reg : Nat) (dest : Nat → Nat)
    (num C : Nat) (hnum : 1 ≤ num) (h255 : num ≤ 255) (hC : 1 ≤ C) (j : Nat) :
    (readAMG mem reg dest num C).fst j = singleReadSpec mem reg dest num j ∧
    (j < num → (readAMG mem reg dest num C).fst j = mem ((reg + j) % 256)) := by
  have h := read_fst mem reg dest num C hC j
  constructor
  · rw [h]
    rfl
  · intro hj
    rw [h, if_pos hj]

theorem read_chunked_eq_single_witness :
    (1 : Nat) ≤ 5 ∧ (5 : Nat) ≤ 255 ∧ (1 : Nat) ≤ 2 ∧
    (readAMG (fun a => 2 * a) 16 (fun _ => 99) 5 2).fst 3 = 38 := by
  refine ⟨by decide, by decide, by decide, ?_⟩
  have h := (read_chunked_eq_single (fun a => 2 * a) 16 (fun _ => 99) 5 2
    (by decide) (by decide) (by decide) 3).2 (by decide)
  norm_num at h
  exact h

/-- C3: for `n ≤ 64`, `readPixels` reads `2n` bytes starting at
`PIXEL_OFFSET = 0x80` (total read size `2n`, first bus event the address
write of 0x80) and, for every `i < n`, stores
`int12ToFloat(word_i) * 0.25` in `buf[i]`, where `word_i` is the
little-endian word of device bytes `0x80 + 2i` (low) and `0x80 + 2i + 1`
(high); entries of `buf` at index `≥ n` are unchanged. -/
theorem readPixels_correct (mem junk : Nat → Nat) (buf : Nat → ℚ) (n C : Nat)
    (hn : n ≤ 64) (hC : 1 ≤ C) :
    (∀ i, i < n → (readPixels mem junk buf n C).fst i =
        (int12ToFloat (mem (0x80 + 2 * i) + 256 * mem (0x80 + (2 * i + 1))) : ℚ) *
          PIXEL_TEMP_CONVERSION) ∧
    (∀ i, n ≤ i → (readPixels mem junk buf n C).fst i = buf i) ∧
    totalRead (readPixels mem junk buf n C).snd = 2 * n ∧
    (readPixels mem junk buf n C).snd.head? = some (I2CEvent.addrWrite 0x80) := by
  have hb : pixBytesToRead n = 2 * n := by
    unfold pixBytesToRead
    omega
  refine ⟨?_, ?_, ?_, ?_⟩
  · intro i hi
    have hm : (2 * i) % 256 = 2 * i := Nat.mod_eq_of_lt (by omega)
    have e1 := read_fst mem 0x80 junk (pixBytesToRead n) C hC ((2 * i) % 256)
    have e2 := read_fst mem 0x80 junk (pixBytesToRead n) C hC ((2 * i) % 256 + 1)
    rw [hb, hm] at e1 e2
    rw [if_pos (by omega)] at e1
    rw [if_pos (by omega)] at e2
    have g1 : (0x80 + 2 * i) % 256 = 0x80 + 2 * i := Nat.mod_eq_of_lt (by omega)
    have g2 : (0x80 + (2 * i + 1)) % 256 = 0x80 + (2 * i + 1) :=
      Nat.mod_eq_of_lt (by omega)
    rw [g1] at e1
    rw [g2] at e2
    simp only [readPixels]
    rw [if_pos hi, hb, hm, e1, e2]
  · intro i hi
    simp only [readPixels]
    rw [if_neg (by omega)]
  · simp only [readPixels]
    rw [hb]
    exact read_totalRead mem 0x80 junk (2 * n) C hC
  · simp only [readPixels]
    rw [read_head mem 0x80 junk (pixBytesToRead n) C hC]

theorem readPixels_correct_witness :
    (2 : Nat) ≤ 64 ∧ (1 : Nat) ≤ 200 ∧
    (readPixels (fun _ => 0) (fun _ => 0) (fun _ => (7 : ℚ)) 2 200).fst 0 = 0 := by
  refine ⟨by decide, by decide, ?_⟩
  have h := (readPixels_correct (fun _ => 0) (fun _ => 0) (fun _ => (7 : ℚ))
    2 200 (by decide) (by decide)).1 0 (by decide)
  rw [h]
  norm_num [int12ToFloat, PIXEL_TEMP_CONVERSION]

set_option maxRecDepth 8000 in
/-- C4 (code bug demonstration): with `size = 65` the byte count read is
reduced to the 128-byte maximum (`pixBytesToRead 65 = 128`, and likewise
`getInterrupt` clamps 9 to 8), but the conversion loop of `readPixels` still
iterates `size` times and accesses the local `rawArray` at index 129, past
the end of the 128-byte buffer it read. -/
theorem readPixels_overrun_demo :
    pixBytesToRead 65 = 128 ∧
    intBytesToRead 9 = 8 ∧
    129 ∈ readPixelsRawIdx 65 ∧
    ¬ (∀ j ∈ readPixelsRawIdx 65, j < pixBytesToRead 65) := by decide

/-- C5: a successful `begin` (adapter init ok) issues, in this exact order,
the register writes {0x00,0x00} (PCTL <- NORMAL_MODE), {0x01,0x3F}
(RST <- INITIAL_RESET), {0x03,0x00} (interrupts disabled), {0x02,0x00}
(FPSC <- 10 Hz), then a 100 ms delay, and returns true — for every possible
pattern of adapter write statuses `wOk`. -/
theorem begin_success_sequence (wOk : Nat → Bool) :
    (beginAMG true wOk).fst = true ∧
    (beginAMG true wOk).snd.fst =
      [I2CEvent.regWrite 0x00 0x00, I2CEvent.regWrite 0x01 0x3F,
       I2CEvent.regWrite 0x03 0x00, I2CEvent.regWrite 0x02 0x00,
       I2CEvent.delayMs 100] :=
  ⟨rfl, rfl⟩

/-- C6: `readThermistor` reads the two device bytes at `TTHL = 0x0E`
(little-endian: 0x0E low, 0x0F high), decodes via `signedMag12ToFloat` and
scales by 0.0625; in particular device bytes {0x10, 0x08} yield -1. -/
theorem readThermistor_correct (mem junk : Nat → Nat) (C : Nat) (hC : 1 ≤ C) :
    readThermistor mem junk C =
      (signedMag12ToFloat (mem 0x0E + 256 * mem 0x0F) : ℚ) * THERMISTOR_CONVERSION ∧
    (mem 0x0E = 0x10 → mem 0x0F = 0x08 → readThermistor mem junk C = -1) := by
  have e0 := read_fst mem 0x0E junk 2 C hC 0
  have e1 := read_fst mem 0x0E junk 2 C hC 1
  norm_num at e0 e1
  have base : readThermistor mem junk C =
      (signedMag12ToFloat (mem 0x0E + 256 * mem 0x0F) : ℚ) * THERMISTOR_CONVERSION := by
    unfold readThermistor
    rw [e0, e1]
  refine ⟨base, ?_⟩
  intro h1 h2
  rw [base, h1, h2]
  have hval : signedMag12ToFloat (0x10 + 256 * 0x08) = -16 := by decide
  rw [hval]
  norm_num [THERMISTOR_CONVERSION]

theorem readThermistor_correct_witness :
    (1 : Nat) ≤ 32 ∧
    readThermistor (fun a => if a = 14 then 0x10 else if a = 15 then 0x08 else 0)
      (fun _ => 0) 32 = -1 := by
  refine ⟨by decide, ?_⟩
  exact (readThermistor_correct
    (fun a => if a = 14 then 0x10 else if a = 15 then 0x08 else 0)
    (fun _ => 0) 32 (by decide)).2 (by decide) (by decide)

/-- C7: for every 12-bit word `w`, `signedMag12ToFloat w` lies in
[-2047, 2047]; it is +0 at `w = 0x000` and -0 at `w = 0x800` (the model ℚ/ℤ
does not distinguish signed zeros, and numerically -0 = 0, which is also the
value the C expression `0 - (float)0` produces); in general it equals
`-(w & 0x7FF)` when bit 0x800 is set and `+(w & 0x7FF)` otherwise. -/
theorem signedMag12_props (w : Nat) (hw : w < 4096) :
    (-2047 ≤ signedMag12ToFloat w ∧ signedMag12ToFloat w ≤ 2047) ∧
    signedMag12ToFloat 0x000 = 0 ∧
    signedMag12ToFloat 0x800 = -0 ∧
    (w &&& 0x800 ≠ 0 → signedMag12ToFloat w = -((w &&& 0x7FF : Nat) : Int)) ∧
    (w &&& 0x800 = 0 → signedMag12ToFloat w = ((w &&& 0x7FF : Nat) : Int)) := by
  have h : w &&& 0x7FF ≤ 2047 := Nat.and_le_right
  refine ⟨?_, by decide, by decide, ?_, ?_⟩
  · unfold signedMag12ToFloat
    split <;> omega
  · intro hb
    unfold signedMag12ToFloat
    rw [if_pos hb]
  · intro hb
    unfold signedMag12ToFloat
    rw [if_neg (by simp [hb])]

theorem signedMag12_props_witness :
    (0x800 : Nat) < 4096 ∧ signedMag12ToFloat 0x800 = -0 :=
  ⟨by decide, (signedMag12_props 0x800 (by decide)).2.2.1⟩

/-- C8 (counterexample to the claim as stated): `readPixels(buf, 0)` does
issue bus transactions — with adapter chunk size 32 the trace is the
register-address write of {0x80} followed by a zero-length read, which is a
nonempty wire sequence. -/
theorem readPixels_zero_counterexample :
    (readPixels (fun _ => 0) (fun _ => 0) (fun _ => 0) 0 32).snd =
      [I2CEvent.addrWrite 0x80, I2CEvent.busRead 0] ∧
    ([I2CEvent.addrWrite 0x80, I2CEvent.busRead 0] : List I2CEvent) ≠ [] := by
  refine ⟨?_, by decide⟩
  rfl

/-- C8 (amended): `readPixels(buf, 0)` leaves every element of `buf`
unchanged, but it does issue one register-address write of {0x80} followed
by one zero-length read transaction (for any adapter chunk size `C ≥ 1` the
single-transaction path is taken since `C > 0`). -/
theorem readPixels_zero (mem junk : Nat → Nat) (buf : Nat → ℚ) (C : Nat)
    (hC : 1 ≤ C) :
    (readPixels mem junk buf 0 C).snd =
      [I2CEvent.addrWrite 0x80, I2CEvent.busRead 0] ∧
    ∀ i, (readPixels mem junk buf 0 C).fst i = buf i := by
  constructor
  · show (readAMG mem 0x80 junk (pixBytesToRead 0) C).snd = _
    rw [show pixBytesToRead 0 = 0 from rfl]
    unfold readAMG
    rw [if_pos (by omega)]
  · intro i
    simp only [readPixels]
    rw [if_neg (by omega)]

theorem readPixels_zero_witness :
    (1 : Nat) ≤ 32 ∧
    (readPixels (fun _ => 0) (fun _ => 0) (fun _ => (3 : ℚ)) 0 32).fst 5 = 3 := by
  refine ⟨by decide, ?_⟩
  exact (readPixels_zero (fun _ => 0) (fun _ => 0) (fun _ => (3 : ℚ)) 32
    (by decide)).2 5

/-- C9: updating one named bitfield of a mirrored configuration register
preserves every other bitfield of that mirror byte, and reading the mirror
afterwards yields exactly the field value just written: `INTEN` via
`enableInterrupt`/`disableInterrupt` and `INTMOD` via `setInterruptMode`
(INTC mirror, byte = INTMOD<<1 | INTEN), and `MAMOD` via
`setMovingAverageMode` (AVE mirror, byte = MAMOD<<5). -/
theorem intc_mirror_rmw (m : Mirrors) (mode : Nat) (b : Bool) (hmode : mode < 2) :
    ((enableInterrupt m).fst.inten = 1 ∧ (enableInterrupt m).fst.intmod = m.intmod ∧
      intcGet (enableInterrupt m).fst % 2 = 1 ∧
      intcGet (enableInterrupt m).fst / 2 = m.intmod % 2 ∧
      (enableInterrupt m).snd = I2CEvent.regWrite 0x03 (intcGet (enableInterrupt m).fst)) ∧
    ((disableInterrupt m).fst.inten = 0 ∧ (disableInterrupt m).fst.intmod = m.intmod ∧
      intcGet (disableInterrupt m).fst % 2 = 0 ∧
      intcGet (disableInterrupt m).fst / 2 = m.intmod % 2 ∧
      (disableInterrupt m).snd = I2CEvent.regWrite 0x03 (intcGet (disableInterrupt m).fst)) ∧
    ((setInterruptMode m mode).fst.intmod = mode ∧
      (setInterruptMode m mode).fst.inten = m.inten ∧
      intcGet (setInterruptMode m mode).fst / 2 = mode ∧
      intcGet (setInterruptMode m mode).fst % 2 = m.inten % 2 ∧
      (setInterruptMode m mode).snd = I2CEvent.regWrite 0x03 (intcGet (setInterruptMode m mode).fst)) ∧
    ((setMovingAverageMode m b).fst.mamod = (if b then 1 else 0) ∧
      (setMovingAverageMode m b).fst.intmod = m.intmod ∧
      (setMovingAverageMode m b).fst.inten = m.inten ∧
      aveGet (setMovingAverageMode m b).fst = (if b then 1 else 0) * 32 ∧
      (setMovingAverageMode m b).snd = I2CEvent.regWrite 0x07 (aveGet (setMovingAverageMode m b).fst)) := by
  refine ⟨⟨rfl, rfl, ?_, ?_, rfl⟩, ⟨rfl, rfl, ?_, ?_, rfl⟩,
    ⟨?_, rfl, ?_, ?_, rfl⟩, ⟨rfl, rfl, rfl, ?_, rfl⟩⟩
  · show ((m.intmod % 2) * 2 + 1 % 2) % 2 = 1
    omega
  · show ((m.intmod % 2) * 2 + 1 % 2) / 2 = m.intmod % 2
    omega
  · show ((m.intmod % 2) * 2 + 0 % 2) % 2 = 0
    omega
  · show ((m.intmod % 2) * 2 + 0 % 2) / 2 = m.intmod % 2
    omega
  · show mode % 2 = mode
    omega
  · show ((mode % 2 % 2) * 2 + m.inten % 2) / 2 = mode
    omega
  · show ((mode % 2 % 2) * 2 + m.inten % 2) % 2 = m.inten % 2
    omega
  · cases b <;> rfl

theorem intc_mirror_rmw_witness :
    (1 : Nat) < 2 ∧ (setInterruptMode initMirrors 1).fst.intmod = 1 :=
  ⟨by decide, ((intc_mirror_rmw initMirrors 1 true (by decide)).2.2.1).1⟩

/-- C10: `begin` returns exactly the adapter-init status; the four register
writes return no status to the driver (`write8` is void and discards the
adapter's reply), so no pattern of write failures can change `begin`'s
return value, its bus sequence, or its mirrors — the result is identical for
any two status oracles, and on init success the full four-write-plus-delay
sequence is always issued. -/
theorem begin_ignores_write_status (initOk : Bool) (wOk wOk2 : Nat → Bool) :
    (beginAMG initOk wOk).fst = initOk ∧
    beginAMG initOk wOk = beginAMG initOk wOk2 ∧
    (beginAMG true wOk).snd.fst =
      [I2CEvent.regWrite 0x00 0x00, I2CEvent.regWrite 0x01 0x3F,
       I2CEvent.regWrite 0x03 0x00, I2CEvent.regWrite 0x02 0x00,
       I2CEvent.delayMs 100] := by
  refine ⟨?_, ?_, rfl⟩
  · cases initOk <;> rfl
  · cases initOk <;> rfl
